import Mathlib

/-!
Verification of the image-viewer core (`src/main.rs`): image-set building,
navigation, geometry calculation and the render-refresh counter.

The Rust code is shallowly embedded:
* a directory entry is a triple of its path, its `Path::extension()` value and
  its modification time (`metadata().modified()` modelled as a `Nat` tick);
* `Vec::sort_by` with comparator `b.mtime.cmp(&a.mtime)` is a stable sort by
  modification time descending; it is embedded as `List.insertionSort` with the
  relation `mtimeGE`, which is exactly the stable sort for that comparator
  (we prove sortedness, permutation and stability, which pin the result);
* `f32` arithmetic in `calculate_ratio` is modelled over `ℚ`
  (exact-arithmetic reading of the same formulas);
* the process argument list `std::env::args()` is a `List String` whose first
  element is the program name (`argv[0]`), as on every normal platform;
* `rand::random::<usize>()` is an arbitrary natural number supplied as an
  argument.
-/

namespace ImageViewer

/-- `SUPPORTED_IMAGE_TYPES` from `src/main.rs`: the static extension list. -/
def SUPPORTED_IMAGE_TYPES : List String := ["jpg", "jpeg", "png", "bmp", "tif"]

/-- A directory entry as the builder sees it: its path, the value of
`Path::extension()` (`none` when the file name has no extension), and its
modification time. -/
structure Entry where
  path : String
  ext : Option String
  mtime : Nat
deriving DecidableEq, Repr

/-- The filter closure of `get_filelist`:
`if let Some(ext) = e.extension() { supported_image_types.contains(&ext) } else { false }`.
Note the comparison is exact (case-sensitive), as `Vec::contains` on `OsStr` is. -/
def keepEntry (e : Entry) : Bool :=
  match e.ext with
  | some ext => SUPPORTED_IMAGE_TYPES.contains ext
  | none => false

/-- The sort relation of `get_filelist`: the comparator
`b.metadata().modified().cmp(&a.metadata().modified())` sorts ascending under
itself, i.e. by modification time descending. -/
def mtimeGE (a b : Entry) : Prop := b.mtime ≤ a.mtime

instance : DecidableRel mtimeGE := fun a b => Nat.decLe b.mtime a.mtime

instance : IsTotal Entry mtimeGE := ⟨fun a b => Nat.le_total b.mtime a.mtime⟩

instance : IsTrans Entry mtimeGE := ⟨fun _ _ _ h1 h2 => Nat.le_trans h2 h1⟩

/-- The list-building part of `get_filelist`: filter the directory listing to
supported extensions, then stable-sort by modification time descending. -/
def get_filelist_images (dir : List Entry) : List Entry :=
  List.insertionSort mtimeGE (dir.filter keepEntry)

/-- The initial-index scan of `get_filelist`: `enumerate().any(...)` records the
index of the first sorted entry path-equal to the starting file, short-circuiting
on the first hit. -/
def findFirstEq : Nat → String → List Entry → Option Nat
  | _, _, [] => none
  | i, fp, p :: ps => if fp = p.path then some i else findFirstEq (i + 1) fp ps

/-- `get_filelist` from `src/main.rs`, over an abstract directory listing:
returns the filtered, sorted image list together with the index of the starting
file in it (if present). -/
def get_filelist (dir : List Entry) (file_path : String) : List Entry × Option Nat :=
  let image_filenames := get_filelist_images dir
  (image_filenames, findFirstEq 0 file_path image_filenames)

/-- `std::env::args().last()` as used by `get_filelist`; `.expect("no file
specified")` aborts exactly when this is `none`. The argument list always
starts with the program name (`argv[0]`). -/
def get_file (args : List String) : Option String := args.getLast?

/-- `RENDERS` from `src/main.rs` (an `i8` constant). -/
def RENDERS : Int := 3

/-- The fields of `struct Stage` that the core logic reads or writes
(`bindings`/`pipeline`/`fullscreen` are external-collaborator state). -/
structure Stage where
  render : Int
  flip : Bool
  ratio : ℚ × ℚ
  images : List Entry
  current_image_index : Nat
deriving DecidableEq, Repr

/-- `Stage::calculate_ratio`: re-arms the render counter, computes
`((sh/sw)*(iw/ih)).min(1.0)` and `((sw/sh)*(ih/iw)).min(1.0)`, and negates the
first component when `flip` is set. The screen size `(sw, sh)` and the texture
size `(iw, ih)` are passed in (the code reads them from the context and the
bound texture). -/
def Stage.calculate_ratio (s : Stage) (sw sh iw ih : ℚ) : Stage :=
  let r0 := min ((sh / sw) * (iw / ih)) 1
  let r1 := min ((sw / sh) * (ih / iw)) 1
  { s with
    render := RENDERS
    ratio := (if s.flip then -r0 else r0, r1) }

/-- `Stage::toggle_flip`: negate the flag, then recompute the ratio. -/
def Stage.toggle_flip (s : Stage) (sw sh iw ih : ℚ) : Stage :=
  Stage.calculate_ratio { s with flip := !s.flip } sw sh iw ih

/-- `Stage::next_image`: `(index + 1) % len`, then reload the image, which ends
in `calculate_ratio` (the load itself is the external decode collaborator). -/
def Stage.next_image (s : Stage) (sw sh iw ih : ℚ) : Stage :=
  Stage.calculate_ratio
    { s with current_image_index := (s.current_image_index + 1) % s.images.length }
    sw sh iw ih

/-- `Stage::prev_image`: wrap to `len - 1` at zero, else decrement; then reload. -/
def Stage.prev_image (s : Stage) (sw sh iw ih : ℚ) : Stage :=
  Stage.calculate_ratio
    { s with
      current_image_index :=
        if s.current_image_index = 0 then s.images.length - 1
        else s.current_image_index - 1 }
    sw sh iw ih

/-- `Stage::random_image`: `rand::random::<usize>() % len`, the random draw `r`
passed as an argument; then reload. -/
def Stage.random_image (s : Stage) (r : Nat) (sw sh iw ih : ℚ) : Stage :=
  Stage.calculate_ratio { s with current_image_index := r % s.images.length }
    sw sh iw ih

/-- `Stage::draw`: when the counter is positive, submit one draw and decrement;
otherwise only commit the frame. The boolean reports whether a draw submission
happened this tick. -/
def Stage.draw (s : Stage) : Stage × Bool :=
  if 0 < s.render then ({ s with render := s.render - 1 }, true) else (s, false)

/-- `Stage::new`: build the file list, start at the found index or 0
(`initial.unwrap_or(0)`), render counter at `RENDERS`, flip off, then
`load_image_from_current`, which ends in `calculate_ratio`. -/
def Stage.new (dir : List Entry) (file_path : String) (sw sh iw ih : ℚ) : Stage :=
  let fl := get_filelist dir file_path
  Stage.calculate_ratio
    { render := RENDERS
      flip := false
      ratio := (0, 0)
      images := fl.1
      current_image_index := (fl.2).getD 0 }
    sw sh iw ih

/-- One step of the event/tick loop, as far as the core state is concerned:
a geometry recompute (window resize), a navigation event, a mirror toggle, or
a frame tick. -/
inductive StageStep : Stage → Stage → Prop
  | recompute (s : Stage) (sw sh iw ih : ℚ) : StageStep s (s.calculate_ratio sw sh iw ih)
  | next (s : Stage) (sw sh iw ih : ℚ) : StageStep s (s.next_image sw sh iw ih)
  | prev (s : Stage) (sw sh iw ih : ℚ) : StageStep s (s.prev_image sw sh iw ih)
  | random (s : Stage) (r : Nat) (sw sh iw ih : ℚ) : StageStep s (s.random_image r sw sh iw ih)
  | toggle (s : Stage) (sw sh iw ih : ℚ) : StageStep s (s.toggle_flip sw sh iw ih)
  | tick (s : Stage) : StageStep s (s.draw).1

/-- The draw-submission flags of `n` consecutive frame ticks. -/
def drawTicks : Nat → Stage → List Bool
  | 0, _ => []
  | n + 1, s => (s.draw).2 :: drawTicks n (s.draw).1

/-- Sample directory entry: `a.png`, modified at tick 10. -/
def entryA : Entry := ⟨"dir/a.png", some "png", 10⟩

/-- Sample directory entry: `b.jpg`, modified at tick 30. -/
def entryB : Entry := ⟨"dir/b.jpg", some "jpg", 30⟩

/-- Sample directory entry: `c.txt`, modified at tick 20. -/
def entryC : Entry := ⟨"dir/c.txt", some "txt", 20⟩

/-- The sample directory listing of the spec's end-to-end example. -/
def sampleDir : List Entry := [entryA, entryB, entryC]

/-- A concrete stage: the sample directory already built, index 0. -/
def sampleStage : Stage :=
  { render := 3, flip := false, ratio := (0, 0)
    images := [entryB, entryA], current_image_index := 0 }

theorem calculate_ratio_images (s : Stage) (sw sh iw ih : ℚ) :
    (s.calculate_ratio sw sh iw ih).images = s.images := rfl

theorem calculate_ratio_index (s : Stage) (sw sh iw ih : ℚ) :
    (s.calculate_ratio sw sh iw ih).current_image_index = s.current_image_index := rfl

theorem calculate_ratio_render (s : Stage) (sw sh iw ih : ℚ) :
    (s.calculate_ratio sw sh iw ih).render = 3 := rfl

theorem next_image_images (s : Stage) (sw sh iw ih : ℚ) :
    (s.next_image sw sh iw ih).images = s.images := rfl

theorem next_image_index (s : Stage) (sw sh iw ih : ℚ) :
    (s.next_image sw sh iw ih).current_image_index
      = (s.current_image_index + 1) % s.images.length := rfl

theorem prev_image_images (s : Stage) (sw sh iw ih : ℚ) :
    (s.prev_image sw sh iw ih).images = s.images := rfl

theorem prev_image_index (s : Stage) (sw sh iw ih : ℚ) :
    (s.prev_image sw sh iw ih).current_image_index
      = if s.current_image_index = 0 then s.images.length - 1
        else s.current_image_index - 1 := rfl

theorem random_image_images (s : Stage) (r : Nat) (sw sh iw ih : ℚ) :
    (s.random_image r sw sh iw ih).images = s.images := rfl

theorem random_image_index (s : Stage) (r : Nat) (sw sh iw ih : ℚ) :
    (s.random_image r sw sh iw ih).current_image_index = r % s.images.length := rfl

/-- `prev_image` is addition of `len - 1` modulo `len`, for in-range indices. -/
theorem prev_image_index_mod (s : Stage) (sw sh iw ih : ℚ)
    (h : s.current_image_index < s.images.length) :
    (s.prev_image sw sh iw ih).current_image_index
      = (s.current_image_index + (s.images.length - 1)) % s.images.length := by
  rw [prev_image_index]
  rcases Nat.eq_zero_or_pos s.current_image_index with h0 | h0
  · rw [if_pos h0, h0, Nat.zero_add, Nat.mod_eq_of_lt (by omega)]
  · rw [if_neg (by omega)]
    have he : s.current_image_index + (s.images.length - 1)
        = (s.current_image_index - 1) + s.images.length := by omega
    rw [he, Nat.add_mod_right, Nat.mod_eq_of_lt (by omega)]

/-- Iterating `next_image` `k` times adds `k` to the index modulo the length. -/
theorem next_image_iterate (sw sh iw ih : ℚ) (k : Nat) :
    ∀ s : Stage, s.current_image_index < s.images.length →
      ((fun t => Stage.next_image t sw sh iw ih)^[k] s).images = s.images ∧
      ((fun t => Stage.next_image t sw sh iw ih)^[k] s).current_image_index
        = (s.current_image_index + k) % s.images.length := by
  induction k with
  | zero =>
    intro s h
    exact ⟨rfl, (Nat.mod_eq_of_lt h).symm⟩
  | succ k ih2 =>
    intro s h
    have hlen : 0 < s.images.length := Nat.lt_of_le_of_lt (Nat.zero_le _) h
    rw [Function.iterate_succ_apply]
    have hlt : (Stage.next_image s sw sh iw ih).current_image_index
        < (Stage.next_image s sw sh iw ih).images.length := by
      rw [next_image_images, next_image_index]
      exact Nat.mod_lt _ hlen
    obtain ⟨hA, hB⟩ := ih2 _ hlt
    refine ⟨by rw [hA, next_image_images], ?_⟩
    rw [hB, next_image_index, next_image_images, Nat.mod_add_mod]
    have : s.current_image_index + 1 + k = s.current_image_index + (k + 1) := by omega
    rw [this]

/-- Iterating `prev_image` `k` times adds `k * (len - 1)` to the index modulo
the length. -/
theorem prev_image_iterate (sw sh iw ih : ℚ) (k : Nat) :
    ∀ s : Stage, s.current_image_index < s.images.length →
      ((fun t => Stage.prev_image t sw sh iw ih)^[k] s).images = s.images ∧
      ((fun t => Stage.prev_image t sw sh iw ih)^[k] s).current_image_index
        = (s.current_image_index + k * (s.images.length - 1)) % s.images.length := by
  induction k with
  | zero =>
    intro s h
    exact ⟨rfl, by rw [Nat.zero_mul, Nat.add_zero]; exact (Nat.mod_eq_of_lt h).symm⟩
  | succ k ih2 =>
    intro s h
    have hlen : 0 < s.images.length := Nat.lt_of_le_of_lt (Nat.zero_le _) h
    rw [Function.iterate_succ_apply]
    have hlt : (Stage.prev_image s sw sh iw ih).current_image_index
        < (Stage.prev_image s sw sh iw ih).images.length := by
      rw [prev_image_images, prev_image_index]
      split <;> omega
    obtain ⟨hA, hB⟩ := ih2 _ hlt
    refine ⟨by rw [hA, prev_image_images], ?_⟩
    rw [hB, prev_image_index_mod s sw sh iw ih h, prev_image_images, Nat.mod_add_mod]
    have : s.current_image_index + (s.images.length - 1) + k * (s.images.length - 1)
        = s.current_image_index + (k + 1) * (s.images.length - 1) := by ring
    rw [this]

/-- C2: with a non-empty image set and an in-range index, `next_image` applied
`count` times and `prev_image` applied `count` times each return the index to
its starting value; `prev_image` at index 0 yields `count - 1` and `next_image`
at index `count - 1` yields 0. -/
theorem nav_cycle (s : Stage) (sw sh iw ih : ℚ)
    (hpos : 0 < s.images.length)
    (hlt : s.current_image_index < s.images.length) :
    ((fun t => Stage.next_image t sw sh iw ih)^[s.images.length] s).current_image_index
        = s.current_image_index ∧
    ((fun t => Stage.prev_image t sw sh iw ih)^[s.images.length] s).current_image_index
        = s.current_image_index ∧
    (s.current_image_index = 0 →
      (s.prev_image sw sh iw ih).current_image_index = s.images.length - 1) ∧
    (s.current_image_index = s.images.length - 1 →
      (s.next_image sw sh iw ih).current_image_index = 0) := by
  refine ⟨?_, ?_, ?_, ?_⟩
  · rw [(next_image_iterate sw sh iw ih s.images.length s hlt).2,
      Nat.add_mod_right, Nat.mod_eq_of_lt hlt]
  · rw [(prev_image_iterate sw sh iw ih s.images.length s hlt).2,
      Nat.add_mul_mod_self_left, Nat.mod_eq_of_lt hlt]
  · intro h0
    rw [prev_image_index, if_pos h0]
  · intro hl
    rw [next_image_index, hl]
    have : s.images.length - 1 + 1 = s.images.length := by omega
    rw [this, Nat.mod_self]

/-- C2 witness: the cycle laws evaluated on the concrete two-image stage. -/
theorem nav_cycle_witness :
    0 < sampleStage.images.length ∧
    sampleStage.current_image_index < sampleStage.images.length ∧
    (((fun t => Stage.next_image t 1000 800 640 480)^[sampleStage.images.length]
        sampleStage).current_image_index = sampleStage.current_image_index ∧
      ((fun t => Stage.prev_image t 1000 800 640 480)^[sampleStage.images.length]
        sampleStage).current_image_index = sampleStage.current_image_index ∧
      (sampleStage.current_image_index = 0 →
        (sampleStage.prev_image 1000 800 640 480).current_image_index
          = sampleStage.images.length - 1) ∧
      (sampleStage.current_image_index = sampleStage.images.length - 1 →
        (sampleStage.next_image 1000 800 640 480).current_image_index = 0)) :=
  ⟨by decide, by decide, nav_cycle sampleStage 1000 800 640 480 (by decide) (by decide)⟩

/-- C3: with a non-empty image set, each of `next_image`, `prev_image` and
`random_image` carries an in-range index to an in-range index. -/
theorem nav_invariant (s : Stage) (r : Nat) (sw sh iw ih : ℚ)
    (hpos : 0 < s.images.length)
    (hlt : s.current_image_index < s.images.length) :
    (s.next_image sw sh iw ih).current_image_index
        < (s.next_image sw sh iw ih).images.length ∧
    (s.prev_image sw sh iw ih).current_image_index
        < (s.prev_image sw sh iw ih).images.length ∧
    (s.random_image r sw sh iw ih).current_image_index
        < (s.random_image r sw sh iw ih).images.length := by
  refine ⟨?_, ?_, ?_⟩
  · rw [next_image_images, next_image_index]
    exact Nat.mod_lt _ hpos
  · rw [prev_image_images, prev_image_index]
    split <;> omega
  · rw [random_image_images, random_image_index]
    exact Nat.mod_lt _ hpos

/-- C3 witness: invariant preservation evaluated on the concrete stage. -/
theorem nav_invariant_witness :
    0 < sampleStage.images.length ∧
    sampleStage.current_image_index < sampleStage.images.length ∧
    ((sampleStage.next_image 1000 800 640 480).current_image_index
        < (sampleStage.next_image 1000 800 640 480).images.length ∧
      (sampleStage.prev_image 1000 800 640 480).current_image_index
        < (sampleStage.prev_image 1000 800 640 480).images.length ∧
      (sampleStage.random_image 7 1000 800 640 480).current_image_index
        < (sampleStage.random_image 7 1000 800 640 480).images.length) :=
  ⟨by decide, by decide, nav_invariant sampleStage 7 1000 800 640 480 (by decide) (by decide)⟩

/-- C8: `std::env::args().last()` is `none` only for an empty argument list;
invoked with no positional argument, the argument list is just the program
name, which is returned and used as the starting path — the
`expect("no file specified")` failure path is not reached. -/
theorem missing_argument_uses_argv0 :
    (∀ args : List String, get_file args = none ↔ args = []) ∧
    get_file ["image_viewer"] = some "image_viewer" := by
  constructor
  · intro args
    exact List.getLast?_eq_none_iff
  · rfl

/-- A frame tick with a positive counter submits one draw and decrements. -/
theorem draw_of_render (s : Stage) (r : Int) (hr : s.render = r) (hpos : 0 < r) :
    s.draw = ({ s with render := r - 1 }, true) := by
  rw [Stage.draw, hr, if_pos hpos]

/-- A frame tick with counter 0 submits nothing and leaves the stage unchanged. -/
theorem draw_idle (s : Stage) (hr : s.render = 0) : s.draw = (s, false) := by
  rw [Stage.draw, hr]
  norm_num

/-- Once the counter is 0, every subsequent tick is idle. -/
theorem drawTicks_idle (n : Nat) :
    ∀ s : Stage, s.render = 0 → drawTicks n s = List.replicate n false := by
  induction n with
  | zero => intro s _; rfl
  | succ k ih =>
    intro s hr
    show (s.draw).2 :: drawTicks k (s.draw).1 = _
    rw [draw_idle s hr]
    rw [List.replicate_succ]
    exact congrArg _ (ih s hr)

/-- From a counter of 3, the next three ticks draw and all later ticks idle. -/
theorem drawTicks_budget (n : Nat) (s : Stage) (hr : s.render = 3) :
    drawTicks (n + 3) s = true :: true :: true :: List.replicate n false := by
  have e1 : s.draw = ({ s with render := 2 }, true) := by
    rw [draw_of_render s 3 hr (by norm_num)]
    norm_num
  have e2 : ({ s with render := 2 } : Stage).draw
      = ({ s with render := 1 }, true) := by
    rw [draw_of_render _ 2 rfl (by norm_num)]
    norm_num
  have e3 : ({ s with render := 1 } : Stage).draw
      = ({ s with render := 0 }, true) := by
    rw [draw_of_render _ 1 rfl (by norm_num)]
    norm_num
  have e1a : (s.draw).1 = ({ s with render := 2 } : Stage) := by rw [e1]
  have e1b : (s.draw).2 = true := by rw [e1]
  have e2a : (({ s with render := 2 } : Stage).draw).1
      = ({ s with render := 1 } : Stage) := by rw [e2]
  have e2b : (({ s with render := 2 } : Stage).draw).2 = true := by rw [e2]
  have e3a : (({ s with render := 1 } : Stage).draw).1
      = ({ s with render := 0 } : Stage) := by rw [e3]
  have e3b : (({ s with render := 1 } : Stage).draw).2 = true := by rw [e3]
  show (s.draw).2 :: drawTicks (n + 2) (s.draw).1 = _
  rw [e1a, e1b]
  show true :: ((({ s with render := 2 } : Stage).draw).2 ::
      drawTicks (n + 1) (({ s with render := 2 } : Stage).draw).1) = _
  rw [e2a, e2b]
  show true :: true :: ((({ s with render := 1 } : Stage).draw).2 ::
      drawTicks n (({ s with render := 1 } : Stage).draw).1) = _
  rw [e3a, e3b]
  exact congrArg _ (congrArg _ (congrArg _ (drawTicks_idle n _ rfl)))

/-- C7: recomputing geometry resets the counter to 3; a frame tick submits a
draw exactly when the counter is positive, decrementing it then and leaving it
otherwise; hence after a recompute exactly the next three ticks draw and every
later tick is idle until the next change. -/
theorem render_budget (s : Stage) (sw sh iw ih : ℚ) (n : Nat) :
    (s.calculate_ratio sw sh iw ih).render = 3 ∧
    (∀ t : Stage,
      t.draw = (if 0 < t.render then { t with render := t.render - 1 } else t,
        decide (0 < t.render))) ∧
    drawTicks (n + 3) (s.calculate_ratio sw sh iw ih)
      = true :: true :: true :: List.replicate n false := by
  refine ⟨rfl, ?_, ?_⟩
  · intro t
    by_cases h : 0 < t.render
    · rw [Stage.draw, if_pos h, if_pos h, decide_eq_true h]
    · rw [Stage.draw, if_neg h, if_neg h, decide_eq_false h]
  · exact drawTicks_budget n _ rfl

/-- A step of the loop never drives the counter out of `[0, 3]`. -/
theorem stage_step_render {a b : Stage} (hab : StageStep a b)
    (h : 0 ≤ a.render ∧ a.render ≤ 3) : 0 ≤ b.render ∧ b.render ≤ 3 := by
  cases hab with
  | recompute sw sh iw ih => exact ⟨by norm_num [calculate_ratio_render], by
      norm_num [calculate_ratio_render]⟩
  | next sw sh iw ih => exact ⟨by norm_num [Stage.next_image, calculate_ratio_render],
      by norm_num [Stage.next_image, calculate_ratio_render]⟩
  | prev sw sh iw ih => exact ⟨by norm_num [Stage.prev_image, calculate_ratio_render],
      by norm_num [Stage.prev_image, calculate_ratio_render]⟩
  | random r sw sh iw ih => exact ⟨by norm_num [Stage.random_image, calculate_ratio_render],
      by norm_num [Stage.random_image, calculate_ratio_render]⟩
  | toggle sw sh iw ih => exact ⟨by norm_num [Stage.toggle_flip, calculate_ratio_render],
      by norm_num [Stage.toggle_flip, calculate_ratio_render]⟩
  | tick =>
    by_cases hp : 0 < a.render
    · rw [draw_of_render a a.render rfl hp]
      constructor <;> simp <;> omega
    · rw [Stage.draw, if_neg hp]
      exact h

/-- C10: in every state reachable from startup by recomputes, navigation,
toggles and frame ticks, the render counter stays within `[0, 3]`. -/
theorem render_counter_invariant (dir : List Entry) (fp : String) (sw sh iw ih : ℚ)
    (t : Stage)
    (h : Relation.ReflTransGen StageStep (Stage.new dir fp sw sh iw ih) t) :
    0 ≤ t.render ∧ t.render ≤ 3 := by
  induction h with
  | refl =>
    constructor
    · show (0 : Int) ≤ 3
      norm_num
    · show (3 : Int) ≤ 3
      norm_num
  | tail _ hstep ih2 => exact stage_step_render hstep ih2

/-- C10 witness: the invariant at the startup state itself. -/
theorem render_counter_invariant_witness :
    0 ≤ (Stage.new [] "x" 1 1 1 1).render ∧ (Stage.new [] "x" 1 1 1 1).render ≤ 3 :=
  render_counter_invariant [] "x" 1 1 1 1 _ Relation.ReflTransGen.refl

theorem calculate_ratio_ratio (s : Stage) (sw sh iw ih : ℚ) :
    (s.calculate_ratio sw sh iw ih).ratio
      = (if s.flip then -(min ((sh / sw) * (iw / ih)) 1)
         else min ((sh / sw) * (iw / ih)) 1,
        min ((sw / sh) * (ih / iw)) 1) := rfl

/-- C4: for positive window and image dimensions the computed pair is
`(min 1 ((sh/sw)*(iw/ih)), min 1 ((sw/sh)*(ih/iw)))` (before mirroring), and
with or without mirroring neither component has absolute value above 1. -/
theorem clamped_fit (s : Stage) (sw sh iw ih : ℚ)
    (hsw : 0 < sw) (hsh : 0 < sh) (hiw : 0 < iw) (hih : 0 < ih) :
    (s.flip = false →
      (s.calculate_ratio sw sh iw ih).ratio
        = (min 1 ((sh / sw) * (iw / ih)), min 1 ((sw / sh) * (ih / iw)))) ∧
    |(s.calculate_ratio sw sh iw ih).ratio.1| ≤ 1 ∧
    |(s.calculate_ratio sw sh iw ih).ratio.2| ≤ 1 := by
  have hx : 0 < (sh / sw) * (iw / ih) := by positivity
  have hy : 0 < (sw / sh) * (ih / iw) := by positivity
  have hminx : 0 < min ((sh / sw) * (iw / ih)) 1 := lt_min hx one_pos
  have hminy : 0 < min ((sw / sh) * (ih / iw)) 1 := lt_min hy one_pos
  have habsx : |min ((sh / sw) * (iw / ih)) 1| ≤ 1 :=
    abs_le.mpr ⟨by linarith, min_le_right _ _⟩
  have habsy : |min ((sw / sh) * (ih / iw)) 1| ≤ 1 :=
    abs_le.mpr ⟨by linarith, min_le_right _ _⟩
  have hfst : (s.calculate_ratio sw sh iw ih).ratio.1
      = if s.flip then -(min ((sh / sw) * (iw / ih)) 1)
        else min ((sh / sw) * (iw / ih)) 1 := rfl
  have hsnd : (s.calculate_ratio sw sh iw ih).ratio.2
      = min ((sw / sh) * (ih / iw)) 1 := rfl
  refine ⟨?_, ?_, ?_⟩
  · intro hf
    rw [calculate_ratio_ratio, hf, if_neg Bool.false_ne_true,
      min_comm ((sh / sw) * (iw / ih)) 1, min_comm ((sw / sh) * (ih / iw)) 1]
  · cases hf : s.flip with
    | false => rw [hfst, hf, if_neg Bool.false_ne_true]; exact habsx
    | true => rw [hfst, hf, if_pos rfl, abs_neg]; exact habsx
  · rw [hsnd]; exact habsy

/-- C4 witness: the clamped-fit facts at a 1000×800 window and 640×480 image. -/
theorem clamped_fit_witness :
    (0 : ℚ) < 1000 ∧ (0 : ℚ) < 800 ∧ (0 : ℚ) < 640 ∧ (0 : ℚ) < 480 ∧
    (sampleStage.calculate_ratio 1000 800 640 480).ratio
      = (min 1 ((800 / 1000) * (640 / 480)), min 1 ((1000 / 800) * (480 / 640))) ∧
    |(sampleStage.calculate_ratio 1000 800 640 480).ratio.1| ≤ 1 ∧
    |(sampleStage.calculate_ratio 1000 800 640 480).ratio.2| ≤ 1 :=
  ⟨by norm_num, by norm_num, by norm_num, by norm_num,
    (clamped_fit sampleStage 1000 800 640 480 (by norm_num) (by norm_num)
      (by norm_num) (by norm_num)).1 rfl,
    (clamped_fit sampleStage 1000 800 640 480 (by norm_num) (by norm_num)
      (by norm_num) (by norm_num)).2.1,
    (clamped_fit sampleStage 1000 800 640 480 (by norm_num) (by norm_num)
      (by norm_num) (by norm_num)).2.2⟩

/-- C5: for positive dimensions with equal image and window aspect ratios and
mirroring off, the result is `(1, 1)`; and for every input, the mirrored result
is the unmirrored one with the first component negated. -/
theorem aspect_identity_and_mirror (s : Stage) (sw sh iw ih : ℚ)
    (hsw : 0 < sw) (hsh : 0 < sh) (hiw : 0 < iw) (hih : 0 < ih)
    (haspect : iw / ih = sw / sh) (hflip : s.flip = false) :
    (s.calculate_ratio sw sh iw ih).ratio = (1, 1) ∧
    ∀ (t : Stage) (w h x y : ℚ),
      (({ t with flip := true } : Stage).calculate_ratio w h x y).ratio
        = (-((({ t with flip := false } : Stage).calculate_ratio w h x y).ratio.1),
           (({ t with flip := false } : Stage).calculate_ratio w h x y).ratio.2) := by
  have hcross : iw * sh = sw * ih := by
    rw [div_eq_div_iff (by positivity) (by positivity)] at haspect
    exact haspect
  have h1 : (sh / sw) * (iw / ih) = 1 := by
    rw [div_mul_div_comm, div_eq_one_iff_eq (by positivity)]
    nlinarith [hcross]
  have h2 : (sw / sh) * (ih / iw) = 1 := by
    rw [div_mul_div_comm, div_eq_one_iff_eq (by positivity)]
    nlinarith [hcross]
  refine ⟨?_, ?_⟩
  · rw [calculate_ratio_ratio, hflip, if_neg Bool.false_ne_true, h1, h2, min_self]
  · intro t w h x y
    rfl

/-- C5 witness: a 4:3 window showing a 4:3 image scales to exactly `(1, 1)`. -/
theorem aspect_identity_witness :
    (0 : ℚ) < 4 ∧ (0 : ℚ) < 3 ∧ (0 : ℚ) < 8 ∧ (0 : ℚ) < 6 ∧
    (8 : ℚ) / 6 = 4 / 3 ∧ sampleStage.flip = false ∧
    (sampleStage.calculate_ratio 4 3 8 6).ratio = (1, 1) :=
  ⟨by norm_num, by norm_num, by norm_num, by norm_num, by norm_num, rfl,
    (aspect_identity_and_mirror sampleStage 4 3 8 6 (by norm_num) (by norm_num)
      (by norm_num) (by norm_num) (by norm_num) rfl).1⟩

/-- C6 (code bug): `calculate_ratio` performs no check on degenerate image
dimensions; at image height 0 it still produces a value (in this exact-field
model, divisions by zero collapse to 0 and the result is `(0, 0)`; in the `f32`
source the division yields infinity/NaN), instead of failing with an
`InvalidImageDimensionsError` as specified. -/
theorem degenerate_dimensions_unchecked :
    (sampleStage.calculate_ratio 1000 800 640 0).ratio = (0, 0) := by
  rw [calculate_ratio_ratio]
  norm_num [sampleStage]

/-- The filter keeps an entry exactly when it has an extension and that
extension occurs verbatim in the supported list. -/
theorem keepEntry_iff (e : Entry) :
    keepEntry e = true ↔ ∃ x, e.ext = some x ∧ x ∈ SUPPORTED_IMAGE_TYPES := by
  cases h : e.ext with
  | none => simp [keepEntry, h]
  | some x => simp [keepEntry, h, List.contains_iff_exists_mem_beq, beq_iff_eq]

/-- Stability of the embedded sort: filtering to any class of entries that are
pairwise tied under `mtimeGE` commutes with sorting. -/
theorem insertionSort_filter_stable (l : List Entry) (p : Entry → Bool)
    (hp : ∀ a b : Entry, p a = true → p b = true → mtimeGE a b) :
    (List.insertionSort mtimeGE l).filter p = l.filter p := by
  have hpair : (l.filter p).Pairwise mtimeGE := by
    apply List.pairwise_of_forall_mem_list
    intro a ha b hb
    exact hp a b (List.of_mem_filter ha) (List.of_mem_filter hb)
  have hsub : List.Sublist (l.filter p) (List.insertionSort mtimeGE l) :=
    List.sublist_insertionSort hpair (List.filter_sublist l)
  have hperm : List.Perm ((List.insertionSort mtimeGE l).filter p) (l.filter p) :=
    (List.perm_insertionSort mtimeGE l).filter p
  have hsub2 : List.Sublist (l.filter p) ((List.insertionSort mtimeGE l).filter p) := by
    have h2 := hsub.filter p
    rwa [List.filter_eq_self.mpr (fun a ha => List.of_mem_filter ha)] at h2
  exact (hsub2.eq_of_length hperm.length_eq.symm).symm

/-- C1 (amended: the extension is matched verbatim, case-sensitively): for a
duplicate-free directory listing, the built list contains exactly the entries
whose extension is in the supported set (entries without an extension
excluded), each exactly once, sorted by modification time descending with
entries of equal modification time kept in directory-listing order. -/
theorem image_set_build (dir : List Entry) (e : Entry) (m : Nat)
    (hnd : dir.Nodup) :
    (e ∈ get_filelist_images dir ↔
        e ∈ dir ∧ ∃ x, e.ext = some x ∧ x ∈ SUPPORTED_IMAGE_TYPES) ∧
    (get_filelist_images dir).Nodup ∧
    List.Sorted mtimeGE (get_filelist_images dir) ∧
    (get_filelist_images dir).filter (fun a => a.mtime == m)
      = (dir.filter keepEntry).filter (fun a => a.mtime == m) := by
  refine ⟨?_, ?_, ?_, ?_⟩
  · rw [get_filelist_images, List.mem_insertionSort, List.mem_filter]
    exact and_congr_right (fun _ => keepEntry_iff e)
  · exact ((List.perm_insertionSort mtimeGE (dir.filter keepEntry)).nodup_iff).mpr
      (hnd.filter keepEntry)
  · exact List.sorted_insertionSort mtimeGE _
  · refine insertionSort_filter_stable _ _ ?_
    intro a b ha hb
    have ha2 : a.mtime = m := by simpa using ha
    have hb2 : b.mtime = m := by simpa using hb
    show b.mtime ≤ a.mtime
    omega

/-- C1 witness: the characterisation evaluated on the sample directory. -/
theorem image_set_build_witness :
    sampleDir.Nodup ∧
    ((entryB ∈ get_filelist_images sampleDir ↔
        entryB ∈ sampleDir ∧ ∃ x, entryB.ext = some x ∧ x ∈ SUPPORTED_IMAGE_TYPES) ∧
      (get_filelist_images sampleDir).Nodup ∧
      List.Sorted mtimeGE (get_filelist_images sampleDir) ∧
      (get_filelist_images sampleDir).filter (fun a => a.mtime == 30)
        = (sampleDir.filter keepEntry).filter (fun a => a.mtime == 30)) :=
  ⟨by decide, image_set_build sampleDir entryB 30 (by decide)⟩

/-- Sample directory entry with an upper-case extension. -/
def entryUpper : Entry := ⟨"dir/a.PNG", some "PNG", 0⟩

/-- The claim's "extension, lower-cased": lower-case a name character by
character. -/
def lowerName (s : String) : String := ⟨s.data.map Char.toLower⟩

/-- C1 counterexample: with lower-cased extension matching, `a.PNG` (lower-cased
extension `png`, which is in the supported set) would have to be kept, but the
builder drops it because the source compares the extension verbatim. -/
theorem image_set_lowercase_false :
    ¬ (∀ dir : List Entry, ∀ e ∈ dir,
        (∃ x, e.ext = some x ∧ lowerName x ∈ SUPPORTED_IMAGE_TYPES) →
        e ∈ get_filelist_images dir) := by
  intro hclaim
  have hmem : entryUpper ∈ get_filelist_images [entryUpper] :=
    hclaim [entryUpper] entryUpper (List.mem_singleton_self _)
      ⟨"PNG", rfl, by decide⟩
  exact absurd hmem (by decide)

theorem get_filelist_fst (dir : List Entry) (fp : String) :
    (get_filelist dir fp).1 = get_filelist_images dir := rfl

theorem get_filelist_snd (dir : List Entry) (fp : String) :
    (get_filelist dir fp).2 = findFirstEq 0 fp (get_filelist_images dir) := rfl

/-- Shifting the accumulator of the index scan shifts its result. -/
theorem findFirstEq_shift (fp : String) :
    ∀ (l : List Entry) (k : Nat),
      findFirstEq (k + 1) fp l = Option.map (· + 1) (findFirstEq k fp l) := by
  intro l
  induction l with
  | nil => intro k; rfl
  | cons p ps ih =>
    intro k
    by_cases h : fp = p.path
    · simp only [findFirstEq, if_pos h]
      rfl
    · simp only [findFirstEq, if_neg h]
      exact ih (k + 1)

/-- The scan returns `some i` exactly when `i` is in range, the entry at `i`
is path-equal to the target, and no earlier entry is. -/
theorem findFirstEq_some_iff (fp : String) :
    ∀ (l : List Entry) (i : Nat),
      (findFirstEq 0 fp l = some i ↔
        ∃ h : i < l.length, (l.get ⟨i, h⟩).path = fp ∧
          ∀ e ∈ l.take i, e.path ≠ fp) := by
  intro l
  induction l with
  | nil =>
    intro i
    constructor
    · intro h
      exact absurd h (by simp [findFirstEq])
    · rintro ⟨h, -, -⟩
      exact absurd h (by simp)
  | cons p ps ih =>
    intro i
    by_cases hp : fp = p.path
    · have hL : findFirstEq 0 fp (p :: ps) = some 0 := by
        simp only [findFirstEq, if_pos hp]
      rw [hL]
      constructor
      · intro h
        obtain rfl : (0 : Nat) = i := by
          injection h
        exact ⟨by simp, hp.symm, by simp⟩
      · rintro ⟨h, hpath, hbefore⟩
        cases i with
        | zero => rfl
        | succ j =>
          exact absurd hp.symm (hbefore p (List.mem_cons_self p _))
    · have hL : findFirstEq 0 fp (p :: ps) = Option.map (· + 1) (findFirstEq 0 fp ps) := by
        simp only [findFirstEq, if_neg hp]
        exact findFirstEq_shift fp ps 0
      rw [hL]
      cases i with
      | zero =>
        constructor
        · intro h
          cases hx : findFirstEq 0 fp ps with
          | none => rw [hx] at h; exact absurd h (by simp)
          | some j => rw [hx] at h; exact absurd h (by simp)
        · rintro ⟨h, hpath, -⟩
          exact absurd hpath.symm hp
      | succ j =>
        constructor
        · intro h
          cases hx : findFirstEq 0 fp ps with
          | none => rw [hx] at h; exact absurd h (by simp)
          | some j2 =>
            rw [hx] at h
            have hj : j2 = j := by
              simpa using h
            subst hj
            obtain ⟨hlen, hpath, hbefore⟩ := (ih j2).mp hx
            refine ⟨Nat.succ_lt_succ hlen, hpath, ?_⟩
            intro e he
            rcases List.mem_cons.mp he with rfl | he2
            · exact fun hc => hp hc.symm
            · exact hbefore e he2
        · rintro ⟨hlen, hpath, hbefore⟩
          have hlen2 : j < ps.length := Nat.lt_of_succ_lt_succ hlen
          have hb2 : ∀ e ∈ ps.take j, e.path ≠ fp := by
            intro e he
            exact hbefore e (List.mem_cons_of_mem p he)
          have hx : findFirstEq 0 fp ps = some j := (ih j).mpr ⟨hlen2, hpath, hb2⟩
          rw [hx]
          rfl

/-- The scan returns `none` exactly when no entry is path-equal to the target. -/
theorem findFirstEq_none_iff (fp : String) :
    ∀ l : List Entry, (findFirstEq 0 fp l = none ↔ ∀ e ∈ l, e.path ≠ fp) := by
  intro l
  induction l with
  | nil => simp [findFirstEq]
  | cons p ps ih =>
    by_cases hp : fp = p.path
    · simp only [findFirstEq, if_pos hp]
      constructor
      · intro h
        exact absurd h (by simp)
      · intro h
        exact absurd hp.symm (h p (List.mem_cons_self p _))
    · simp only [findFirstEq, if_neg hp]
      rw [findFirstEq_shift fp ps 0]
      constructor
      · intro h
        have hx : findFirstEq 0 fp ps = none := by
          cases hx2 : findFirstEq 0 fp ps with
          | none => rfl
          | some j => rw [hx2] at h; exact absurd h (by simp)
        intro e he
        rcases List.mem_cons.mp he with rfl | he2
        · exact fun hc => hp hc.symm
        · exact (ih.mp hx) e he2
      · intro h
        have hx : findFirstEq 0 fp ps = none :=
          ih.mpr (fun e he => h e (List.mem_cons_of_mem p he))
        rw [hx]
        rfl

/-- C9: the initial-index scan returns the index of the first sorted entry
path-equal to the starting path and `none` when no entry is, in which case the
stage starts at index 0; and on the example directory
`{a.png (mtime 10), b.jpg (mtime 30), c.txt (mtime 20)}` with starting file
`b.jpg` the build yields `[b.jpg, a.png]` with initial index 0. -/
theorem initial_index_spec (dir : List Entry) (fp : String) (i : Nat)
    (sw sh iw ih : ℚ) :
    ((get_filelist dir fp).2 = some i ↔
      ∃ h : i < (get_filelist dir fp).1.length,
        ((get_filelist dir fp).1.get ⟨i, h⟩).path = fp ∧
        ∀ e ∈ (get_filelist dir fp).1.take i, e.path ≠ fp) ∧
    ((get_filelist dir fp).2 = none ↔ ∀ e ∈ (get_filelist dir fp).1, e.path ≠ fp) ∧
    ((get_filelist dir fp).2 = none →
      (Stage.new dir fp sw sh iw ih).current_image_index = 0) ∧
    get_filelist sampleDir "dir/b.jpg" = ([entryB, entryA], some 0) := by
  refine ⟨?_, ?_, ?_, by decide⟩
  · rw [get_filelist_snd, get_filelist_fst]
    exact findFirstEq_some_iff fp _ i
  · rw [get_filelist_snd, get_filelist_fst]
    exact findFirstEq_none_iff fp _
  · intro hnone
    show ((get_filelist dir fp).2).getD 0 = 0
    rw [hnone]
    rfl

/-- C9 witness: a starting path matching no entry makes the stage start at
index 0. -/
theorem initial_index_spec_witness :
    (Stage.new sampleDir "nope" 1 1 1 1).current_image_index = 0 :=
  (initial_index_spec sampleDir "nope" 0 1 1 1 1).2.2.1 (by decide)

end ImageViewer
